import Mathlib

/-!
Verification of the trippy expense-splitting and balance-ledger core.

The monetary amounts are modelled in exact integer cents (the spec's
fixed-point minor-currency-unit semantics); user, trip and expense
identifiers are natural numbers.  The embedded functions follow the
source:

* `computeBalances` embeds the balance computation of the
  `GET /api/expenses/balances/:tripId` handler (`src/worker/index.ts`,
  lines 493-518): a record of balances initialised to zero for every
  trip member, incremented by each expense's amount at the payer's key,
  decremented by each participation's amount at the participant's key,
  and finally read back in roster order.
* `computeSplit` embeds the expense-creation pipeline: the zod form
  schema (`src/src/pages/AddExpense.tsx`, lines 61-89), the equal-split
  recalculation effect (lines 175-202), the `onSubmit` sum validation
  (lines 239-261), the personal-expense participant override of
  `createExpenseMutation` (lines 209-217), and the share creation of the
  `POST /api/expenses` handler (`src/worker/index.ts`, lines 355-437).
-/

namespace Trippy

/-- A trip roster entry as selected by the balances handler
(`src/worker/index.ts` lines 471-478): the member's user id and name. -/
structure Member where
  userId : Nat
  name : String
deriving DecidableEq

/-- An expense row as used by the worker (`drizzle/schema.ts`): id,
paying member, amount in cents, and the personal flag. -/
structure Expense where
  id : Nat
  payerId : Nat
  amount : Int
  isPersonal : Bool
deriving DecidableEq

/-- An `expense_participants` row: the expense it belongs to, the
participating member, and the share amount in cents. -/
structure Participation where
  expenseId : Nat
  userId : Nat
  amount : Int
deriving DecidableEq

/-- One entry of the balances response (`src/worker/index.ts` lines
514-518): the spec calls the `balance` field `netAmount`. -/
structure Balance where
  userId : Nat
  name : String
  balance : Int
deriving DecidableEq

/-- `balances[uid] += delta` on the in-memory `Record<number, number>` of
the balances handler.  The record is modelled as a total function that is
zero outside the touched keys, matching the initialisation of every
member key to `0` and the `balances[member.userId] || 0` fallback read. -/
def updAdd (bal : Nat → Int) (uid : Nat) (delta : Int) : Nat → Int :=
  fun u => if u = uid then bal u + delta else bal u

/-- The payments pass (`src/worker/index.ts` lines 502-505): for every
expense of the trip, add the full amount to the payer's balance. -/
def addPayments (bal : Nat → Int) (exps : List Expense) : Nat → Int :=
  exps.foldl (fun b e => updAdd b e.payerId e.amount) bal

/-- The shares pass (`src/worker/index.ts` lines 508-511): for every
participation, subtract the share amount from that member's balance. -/
def subtractShares (bal : Nat → Int) (parts : List Participation) : Nat → Int :=
  parts.foldl (fun b p => updAdd b p.userId (-p.amount)) bal

/-- The balance computation of `GET /api/expenses/balances/:tripId`
(`src/worker/index.ts` lines 493-518): initialise every member's balance
to zero, add what each payer paid, subtract what each participant owes,
and emit one record per member in roster order. -/
def computeBalances (members : List Member) (exps : List Expense)
    (parts : List Participation) : List Balance :=
  let bal := subtractShares (addPayments (fun _ => 0) exps) parts
  members.map (fun m => { userId := m.userId, name := m.name, balance := bal m.userId })

/-- A participant entry of the expense form: user id and share amount in
cents (`src/src/pages/AddExpense.tsx` participants field array). -/
structure Participant where
  userId : Nat
  amount : Int
deriving DecidableEq

/-- A created share: an `expense_participants` row as inserted by the
`POST /api/expenses` handler (`src/worker/index.ts` lines 402-416). -/
structure Share where
  userId : Nat
  amount : Int
  isPaid : Bool
deriving DecidableEq

/-- The distinct validation failures of the expense-creation pipeline.
`InvalidAmount` is the zod refinement `parseFloat(val) > 0` on the total,
`EmptyParticipants` the non-empty participants refinement (also checked
by the worker), `NegativeShare` the per-participant `>= 0` refinement,
and `SplitMismatch` the `onSubmit` sum check, carrying the computed
participant sum and the expected total as its message does. -/
inductive SplitError where
  | InvalidAmount : SplitError
  | EmptyParticipants : SplitError
  | NegativeShare : SplitError
  | SplitMismatch (participantSum totalAmount : Int) : SplitError
deriving DecidableEq

/-- The per-person equal share
`(totalAmount / participantCount).toFixed(2)` of
`src/src/pages/AddExpense.tsx` line 186, modelled at exact cent
precision: `totalAmount / n` rounded to the nearest cent, halves up
(for the positive amounts that reach this point).  The source rounds
the IEEE-double quotient instead, which at an exact half-cent tie
usually lies just below the decimal half and then rounds down
(2.01 / 2 gives 1.00 there, while the exact half-up value is 1.01), so
theorems that depend on this value exclude half-cent ties. -/
def amountPerPerson (totalAmount : Int) (n : Nat) : Int :=
  (2 * totalAmount + (n : Int)) / (2 * (n : Int))

/-- The equal-split recalculation effect
(`src/src/pages/AddExpense.tsx` lines 175-202): overwrite every
participant's amount with the common per-person share. -/
def recalcEvenSplit (totalAmount : Int) (participants : List Participant) :
    List Participant :=
  participants.map
    (fun p => { p with amount := amountPerPerson totalAmount participants.length })

/-- Share creation in the `POST /api/expenses` handler
(`src/worker/index.ts` lines 402-416): one row per participant, marked
paid exactly when the participant is the payer. -/
def mkShares (payerId : Nat) (participants : List Participant) : List Share :=
  participants.map
    (fun p => { userId := p.userId, amount := p.amount, isPaid := p.userId == payerId })

/-- The composite split pipeline, in source order: zod validation of the
form (total positive, participants non-empty, share amounts
non-negative), the equal-split recalculation when `splitEvenly` is set
and the expense is not personal, the personal-expense override that
makes the payer the sole participant with the full amount
(`createExpenseMutation`), the `onSubmit` one-cent sum tolerance check
for non-personal expenses, and finally the worker's share creation.
No step consults the trip roster.  The tolerance check transcribes
`Math.abs(totalAmount - participantSum) > 0.01` at exact cent
precision: a difference of more than one cent is always rejected and an
exact match always accepted, but at a difference of exactly one cent
the double subtraction can land on either side of `0.01`, so theorems
stated at that boundary use only inputs where the floating-point
comparison is known to agree with the cent model. -/
def computeSplit (totalAmount : Int) (participants : List Participant)
    (payerId : Nat) (isPersonal splitEvenly : Bool) :
    Except SplitError (List Share) :=
  if totalAmount ≤ 0 then
    .error .InvalidAmount
  else if participants.length = 0 then
    .error .EmptyParticipants
  else if participants.any (fun p => p.amount < 0) then
    .error .NegativeShare
  else
    let resolved :=
      if splitEvenly && !isPersonal then recalcEvenSplit totalAmount participants
      else participants
    if isPersonal then
      .ok (mkShares payerId [{ userId := payerId, amount := totalAmount }])
    else
      let participantSum := (resolved.map (fun p => p.amount)).sum
      if 1 < (totalAmount - participantSum).natAbs then
        .error (.SplitMismatch participantSum totalAmount)
      else
        .ok (mkShares payerId resolved)

/-! ### Pointwise characterisation of the two balance passes -/

theorem addPayments_apply (exps : List Expense) (bal : Nat → Int) (u : Nat) :
    addPayments bal exps u
      = bal u + ((exps.filter (fun e => e.payerId == u)).map Expense.amount).sum := by
  induction exps generalizing bal with
  | nil => simp [addPayments]
  | cons e t ih =>
    have hstep : addPayments bal (e :: t) = addPayments (updAdd bal e.payerId e.amount) t := rfl
    rw [hstep, ih]
    by_cases h : e.payerId = u
    · simp [updAdd, h, List.filter_cons]
      omega
    · simp [updAdd, h, List.filter_cons, Ne.symm h]

theorem subtractShares_apply (parts : List Participation) (bal : Nat → Int) (u : Nat) :
    subtractShares bal parts u
      = bal u - ((parts.filter (fun p => p.userId == u)).map Participation.amount).sum := by
  induction parts generalizing bal with
  | nil => simp [subtractShares]
  | cons p t ih =>
    have hstep : subtractShares bal (p :: t) = subtractShares (updAdd bal p.userId (-p.amount)) t := rfl
    rw [hstep, ih]
    by_cases h : p.userId = u
    · simp [updAdd, h, List.filter_cons]
      omega
    · simp [updAdd, h, List.filter_cons, Ne.symm h]

/-! ### Summation helpers -/

theorem sum_map_ite_count (keys : List Nat) (a : Nat) (c : Int) :
    (keys.map (fun k => if a = k then c else 0)).sum = (keys.count a : Int) * c := by
  induction keys with
  | nil => simp
  | cons k t ih =>
    by_cases hk : a = k
    · subst hk
      simp [List.count_cons, ih]
      ring
    · simp [List.count_cons, hk, Ne.symm hk, ih]

/-- Summing a value over a list equals summing, over a list of keys in
which every item's key occurs exactly once, the sums of the values of
the items with that key. -/
theorem sum_filter_partition {α : Type} (keys : List Nat) (L : List α)
    (key : α → Nat) (val : α → Int)
    (h : ∀ x ∈ L, keys.count (key x) = 1) :
    (keys.map (fun k => ((L.filter (fun x => key x == k)).map val).sum)).sum
      = (L.map val).sum := by
  induction L with
  | nil => simp
  | cons x t ih =>
    have ht : ∀ y ∈ t, keys.count (key y) = 1 := fun y hy => h y (List.mem_cons_of_mem x hy)
    have hx : keys.count (key x) = 1 := h x (List.mem_cons_self x t)
    have hsplit : ∀ k, (((x :: t).filter (fun y => key y == k)).map val).sum
        = (if key x = k then val x else 0)
          + ((t.filter (fun y => key y == k)).map val).sum := by
      intro k
      by_cases hk : key x = k <;> simp [List.filter_cons, hk]
    calc (keys.map (fun k => (((x :: t).filter (fun y => key y == k)).map val).sum)).sum
        = (keys.map (fun k => (if key x = k then val x else 0)
            + ((t.filter (fun y => key y == k)).map val).sum)).sum := by
          simp only [hsplit]
      _ = (keys.map (fun k => if key x = k then val x else 0)).sum
            + (keys.map (fun k => ((t.filter (fun y => key y == k)).map val).sum)).sum :=
          List.sum_map_add
      _ = val x + (t.map val).sum := by
          rw [ih ht, sum_map_ite_count, hx]
          push_cast
          ring
      _ = ((x :: t).map val).sum := by simp

theorem sum_map_sub_distrib {α : Type} (l : List α) (f g : α → Int) :
    (l.map (fun a => f a - g a)).sum = (l.map f).sum - (l.map g).sum := by
  induction l with
  | nil => simp
  | cons a t ih =>
    simp only [List.map_cons, List.sum_cons, ih]
    ring

theorem mkShares_isPaid (payerId : Nat) (L : List Participant) (s : Share)
    (hs : s ∈ mkShares payerId L) :
    (s.userId = payerId → s.isPaid = true) ∧ (s.userId ≠ payerId → s.isPaid = false) := by
  simp only [mkShares, List.mem_map] at hs
  obtain ⟨p, hp, rfl⟩ := hs
  refine ⟨fun h => ?_, fun h => ?_⟩
  · have hpu : p.userId = payerId := h
    simp [hpu]
  · have hpu : ¬ p.userId = payerId := h
    simp [hpu]

/-! ### Claim theorems -/

/-- Claim C8: `computeBalances` returns exactly one `Balance` record per
supplied trip member, in the order of the supplied member list, carrying
that member's id and name; the output is never reordered or sorted by
amount. -/
theorem computeBalances_roster_order (members : List Member) (exps : List Expense)
    (parts : List Participation) :
    (computeBalances members exps parts).map (fun b => (b.userId, b.name))
      = members.map (fun m => (m.userId, m.name)) := by
  simp [computeBalances, List.map_map, Function.comp]

/-- Claim C10: on an empty expense history (no expenses and no
participations) `computeBalances` returns one `Balance` per member, each
with net amount exactly `0`, and in particular the zero-sum property
holds for the empty expense set. -/
theorem computeBalances_empty_history (members : List Member) :
    computeBalances members [] []
      = members.map (fun m => { userId := m.userId, name := m.name, balance := 0 })
    ∧ ((computeBalances members [] []).map Balance.balance).sum = 0 := by
  constructor
  · rfl
  · refine List.sum_eq_zero ?_
    intro x hx
    simp only [computeBalances, List.map_map, List.mem_map] at hx
    obtain ⟨m, hm, rfl⟩ := hx
    rfl

/-- Claim C7: a non-positive total amount is rejected by the first
validation stage (the zod refinement on the amount field): the split
pipeline fails with `InvalidAmount` and produces no shares. -/
theorem computeSplit_nonpositive_amount (totalAmount : Int)
    (participants : List Participant) (payerId : Nat)
    (isPersonal splitEvenly : Bool)
    (h : totalAmount ≤ 0) :
    computeSplit totalAmount participants payerId isPersonal splitEvenly
      = .error .InvalidAmount := by
  simp [computeSplit, h]

/-- Witness for C7 at the concrete total amount 0. -/
theorem computeSplit_nonpositive_amount_witness :
    computeSplit 0 [⟨1, 0⟩] 1 false false = .error .InvalidAmount :=
  computeSplit_nonpositive_amount 0 [⟨1, 0⟩] 1 false false (by decide)

/-- Claim C9: every share produced by a successful run of the split
pipeline is marked paid exactly when it belongs to the payer, under
every policy (personal, equal, or custom). -/
theorem computeSplit_payer_share_paid (totalAmount : Int)
    (participants : List Participant) (payerId : Nat)
    (isPersonal splitEvenly : Bool) (shares : List Share)
    (hok : computeSplit totalAmount participants payerId isPersonal splitEvenly
      = .ok shares) :
    ∀ s ∈ shares,
      (s.userId = payerId → s.isPaid = true) ∧ (s.userId ≠ payerId → s.isPaid = false) := by
  intro s hs
  simp only [computeSplit] at hok
  split_ifs at hok <;>
    first
      | exact Except.noConfusion hok
      | · injection hok with h
          subst h
          exact mkShares_isPaid payerId _ s hs

/-- Witness for C9: a two-person custom split where the payer's share is
paid and the other participant's share is unpaid. -/
theorem computeSplit_payer_share_paid_witness :
    ((⟨1, 500, true⟩ : Share).userId = 1 → (⟨1, 500, true⟩ : Share).isPaid = true)
    ∧ ((⟨2, 500, false⟩ : Share).userId ≠ 1 → (⟨2, 500, false⟩ : Share).isPaid = false) :=
  ⟨(computeSplit_payer_share_paid 1000 [⟨1, 500⟩, ⟨2, 500⟩] 1 false false
      [⟨1, 500, true⟩, ⟨2, 500, false⟩] rfl ⟨1, 500, true⟩ (by simp)).1,
   (computeSplit_payer_share_paid 1000 [⟨1, 500⟩, ⟨2, 500⟩] 1 false false
      [⟨1, 500, true⟩, ⟨2, 500, false⟩] rfl ⟨2, 500, false⟩ (by simp)).2⟩

/-- Claim C4: a non-personal custom split (both checkboxes off) whose
participant amounts, all validated non-negative, sum to a value more
than one cent away from the total is rejected by the `onSubmit` check
with a mismatch error carrying the computed sum and the expected total;
no shares are produced and the supplied amounts are never adjusted. -/
theorem computeSplit_custom_mismatch (totalAmount : Int)
    (participants : List Participant) (payerId : Nat)
    (hpos : 0 < totalAmount)
    (hne : participants.length ≠ 0)
    (hnn : ∀ p ∈ participants, 0 ≤ p.amount)
    (hmis : 1 < (totalAmount - (participants.map (fun p => p.amount)).sum).natAbs) :
    computeSplit totalAmount participants payerId false false
      = .error (.SplitMismatch ((participants.map (fun p => p.amount)).sum) totalAmount) := by
  have h1 : ¬ totalAmount ≤ 0 := by omega
  have h3 : participants.any (fun p => p.amount < 0) = false := by
    simp only [List.any_eq_false, decide_eq_true_eq]
    intro p hp
    exact not_lt.mpr (hnn p hp)
  simp [computeSplit, h1, hne, h3, hmis]

/-- Witness for C4: a 10.00 total with custom shares summing to 8.00 is
rejected with the mismatch error carrying 8.00 and 10.00. -/
theorem computeSplit_custom_mismatch_witness :
    computeSplit 1000 [⟨1, 400⟩, ⟨2, 400⟩] 1 false false
      = .error (.SplitMismatch 800 1000) :=
  computeSplit_custom_mismatch 1000 [⟨1, 400⟩, ⟨2, 400⟩] 1
    (by decide) (by decide) (by decide) (by decide)

/-- Counterexample to claim C6: the split pipeline never consults the
trip roster.  With a roster whose only member ids are 1 and 2, a split
request naming the non-member 99 as a participant succeeds and creates a
share for 99, instead of failing with a `NotATripMember` error (no such
error exists anywhere in the pipeline). -/
theorem computeSplit_nonmember_accepted :
    99 ∉ ([⟨1, "A"⟩, ⟨2, "B"⟩] : List Member).map Member.userId
    ∧ computeSplit 1000 [⟨1, 500⟩, ⟨99, 500⟩] 1 false false
        = .ok [⟨1, 500, true⟩, ⟨99, 500, false⟩] :=
  ⟨by decide, rfl⟩

/-- Amended claim C6: the pipeline performs no membership validation at
all; whenever the amount, non-emptiness, non-negativity and sum checks
pass, the split succeeds and shares are created exactly for the supplied
participants, whoever they are. -/
theorem computeSplit_no_membership_check (totalAmount : Int)
    (participants : List Participant) (payerId : Nat)
    (hpos : 0 < totalAmount)
    (hne : participants.length ≠ 0)
    (hnn : ∀ p ∈ participants, 0 ≤ p.amount)
    (htol : (totalAmount - (participants.map (fun p => p.amount)).sum).natAbs ≤ 1) :
    computeSplit totalAmount participants payerId false false
      = .ok (mkShares payerId participants) := by
  have h1 : ¬ totalAmount ≤ 0 := by omega
  have h3 : participants.any (fun p => p.amount < 0) = false := by
    simp only [List.any_eq_false, decide_eq_true_eq]
    intro p hp
    exact not_lt.mpr (hnn p hp)
  have h5 : ¬ 1 < (totalAmount - (participants.map (fun p => p.amount)).sum).natAbs :=
    Nat.not_lt.mpr htol
  simp [computeSplit, h1, hne, h3, h5]

/-- Witness for the amended claim C6. -/
theorem computeSplit_no_membership_check_witness :
    computeSplit 1000 [⟨1, 500⟩, ⟨3, 500⟩] 2 false false
      = .ok (mkShares 2 [⟨1, 500⟩, ⟨3, 500⟩]) :=
  computeSplit_no_membership_check 1000 [⟨1, 500⟩, ⟨3, 500⟩] 2
    (by decide) (by decide) (by decide) (by decide)

/-- Counterexample to claim C3: the balances handler performs no
invariant checking.  Fed an expense of 100.00 whose only share is 50.00
(shares do not sum to the amount), it still returns a balance set — and
one whose net amounts sum to 50.00, not zero — instead of failing with
an `InvariantViolation` diagnostic (no such diagnostic exists in the
handler). -/
theorem computeBalances_invariant_violation_ignored :
    computeBalances [⟨1, "A"⟩, ⟨2, "B"⟩] [⟨1, 1, 10000, false⟩] [⟨1, 2, 5000⟩]
      = [⟨1, "A", 10000⟩, ⟨2, "B", -5000⟩]
    ∧ ((computeBalances [⟨1, "A"⟩, ⟨2, "B"⟩] [⟨1, 1, 10000, false⟩]
        [⟨1, 2, 5000⟩]).map Balance.balance).sum ≠ 0 := by
  constructor
  · rfl
  · decide

/-- Amended claim C3: `computeBalances` is pure aggregation with no
failure channel; whatever the input — invariant-violating or not — it
returns exactly one balance record per member, never a diagnostic. -/
theorem computeBalances_total_function (members : List Member)
    (exps : List Expense) (parts : List Participation) :
    (computeBalances members exps parts).length = members.length := by
  simp [computeBalances]

/-- Claim C5: appending a personal expense — flagged `isPersonal`, whose
sole participation belongs to the payer and carries the full amount —
leaves every member's computed balance unchanged compared with omitting
the expense and its participation entirely. -/
theorem computeBalances_personal_neutral (members : List Member)
    (exps : List Expense) (parts : List Participation)
    (pe : Expense) (pp : Participation)
    (_hper : pe.isPersonal = true)
    (hsole : pp.userId = pe.payerId)
    (hamt : pp.amount = pe.amount)
    (_hexp : pp.expenseId = pe.id) :
    computeBalances members (exps ++ [pe]) (parts ++ [pp])
      = computeBalances members exps parts := by
  simp only [computeBalances]
  refine List.map_congr_left fun m hm => ?_
  have hbal : subtractShares (addPayments (fun _ => 0) (exps ++ [pe])) (parts ++ [pp]) m.userId
      = subtractShares (addPayments (fun _ => 0) exps) parts m.userId := by
    rw [subtractShares_apply, subtractShares_apply, addPayments_apply, addPayments_apply]
    rw [List.filter_append, List.filter_append, List.map_append, List.map_append,
        List.sum_append, List.sum_append]
    by_cases h : pe.payerId = m.userId
    · simp [List.filter_cons, h, hsole, hamt]
    · simp [List.filter_cons, h, hsole, hamt]
  rw [hbal]

/-- Witness for C5: adding a personal expense of 20.00 for member 1 to a
two-member trip with one shared 50.00 expense leaves both balances as
they were. -/
theorem computeBalances_personal_neutral_witness :
    computeBalances [⟨1, "A"⟩, ⟨2, "B"⟩]
        ([⟨1, 1, 5000, false⟩] ++ [⟨2, 1, 2000, true⟩])
        ([⟨1, 1, 2500⟩, ⟨1, 2, 2500⟩] ++ [⟨2, 1, 2000⟩])
      = computeBalances [⟨1, "A"⟩, ⟨2, "B"⟩]
        [⟨1, 1, 5000, false⟩] [⟨1, 1, 2500⟩, ⟨1, 2, 2500⟩] :=
  computeBalances_personal_neutral [⟨1, "A"⟩, ⟨2, "B"⟩]
    [⟨1, 1, 5000, false⟩] [⟨1, 1, 2500⟩, ⟨1, 2, 2500⟩]
    ⟨2, 1, 2000, true⟩ ⟨2, 1, 2000⟩ rfl rfl rfl rfl

/-- Claim C1: under the data-model invariants — roster ids distinct,
expense ids distinct, every payer and every participation's user a
roster member, every participation attached to a listed expense, and
each expense's participations summing exactly to its amount — the net
amounts returned by `computeBalances` sum to exactly zero. -/
theorem computeBalances_sum_zero (members : List Member)
    (exps : List Expense) (parts : List Participation)
    (hnodup : (members.map Member.userId).Nodup)
    (hids : (exps.map Expense.id).Nodup)
    (hpayer : ∀ e ∈ exps, e.payerId ∈ members.map Member.userId)
    (hshare : ∀ p ∈ parts, p.userId ∈ members.map Member.userId)
    (hpartexp : ∀ p ∈ parts, p.expenseId ∈ exps.map Expense.id)
    (hsum : ∀ e ∈ exps,
      ((parts.filter (fun p => p.expenseId == e.id)).map Participation.amount).sum
        = e.amount) :
    ((computeBalances members exps parts).map Balance.balance).sum = 0 := by
  have hpay1 : ∀ e ∈ exps, (members.map Member.userId).count e.payerId = 1 :=
    fun e he => List.count_eq_one_of_mem hnodup (hpayer e he)
  have hshare1 : ∀ p ∈ parts, (members.map Member.userId).count p.userId = 1 :=
    fun p hp => List.count_eq_one_of_mem hnodup (hshare p hp)
  have hexp1 : ∀ p ∈ parts, (exps.map Expense.id).count p.expenseId = 1 :=
    fun p hp => List.count_eq_one_of_mem hids (hpartexp p hp)
  have hmain : ((computeBalances members exps parts).map Balance.balance).sum
      = (members.map (fun m =>
          ((exps.filter (fun e => e.payerId == m.userId)).map Expense.amount).sum
          - ((parts.filter (fun p => p.userId == m.userId)).map Participation.amount).sum)).sum := by
    simp only [computeBalances, List.map_map]
    refine congrArg List.sum (List.map_congr_left fun m hm => ?_)
    show subtractShares (addPayments (fun _ => 0) exps) parts m.userId = _
    rw [subtractShares_apply, addPayments_apply]
    simp
  have h1 := sum_filter_partition (members.map Member.userId) exps
    Expense.payerId Expense.amount hpay1
  have h2 := sum_filter_partition (members.map Member.userId) parts
    Participation.userId Participation.amount hshare1
  have h3 := sum_filter_partition (exps.map Expense.id) parts
    Participation.expenseId Participation.amount hexp1
  rw [List.map_map] at h1 h2 h3
  have h4 : (exps.map (fun e =>
      ((parts.filter (fun p => p.expenseId == e.id)).map Participation.amount).sum))
      = exps.map Expense.amount :=
    List.map_congr_left fun e he => hsum e he
  rw [hmain, sum_map_sub_distrib]
  simp only [Function.comp_def] at h1 h2 h3
  rw [h1, h2, ← h3, h4]
  omega

/-- Witness for C1: the spec's worked example — a 100.00 expense paid by
member 1 and split 33.34/33.33/33.33 across a three-member roster —
yields balances summing to zero. -/
theorem computeBalances_sum_zero_witness :
    ((computeBalances [⟨1, "A"⟩, ⟨2, "B"⟩, ⟨3, "C"⟩]
        [⟨1, 1, 10000, false⟩]
        [⟨1, 1, 3334⟩, ⟨1, 2, 3333⟩, ⟨1, 3, 3333⟩]).map Balance.balance).sum = 0 :=
  computeBalances_sum_zero [⟨1, "A"⟩, ⟨2, "B"⟩, ⟨3, "C"⟩]
    [⟨1, 1, 10000, false⟩]
    [⟨1, 1, 3334⟩, ⟨1, 2, 3333⟩, ⟨1, 3, 3333⟩]
    (by decide) (by decide) (by decide) (by decide) (by decide) (by decide)

end Trippy
